import Mathlib

/-!
Verification of the client-side upsell logic of the Horizon storefront theme.

The JavaScript sources (`assets/upsell-products.js`, `assets/product-form.js`,
`assets/cart-upsell.js`, and the editor-bridge utility script) are shallowly
embedded below: pure functions become Lean functions, the stateful DOM helpers
become explicit state-passing functions, and JavaScript objects become
association lists.  Promise-based bridge calls are modelled by `Option`:
`none` stands for a promise that never settles.
-/

/-! ## Dismissed-products storage (`assets/cart-upsell.js`)

`CartUpsellComponent.saveDismissedState` reads the stored list of dismissed
product ids, and appends the given id only when it is not already included.
The session-storage contents are modelled as the stored list itself. -/

/-- Embeds `CartUpsellComponent.saveDismissedState`: append `productId` to the
stored dismissed list unless it is already present. -/
def saveDismissedState (stored : List String) (productId : String) : List String :=
  if productId ∈ stored then stored else stored ++ [productId]

/-! ## Bounded polling (`UdoPaintsEditorManager.waitForManager`,
`assets/upsell-products.js`)

`waitForManager` polls `window.UdoPaintsEditorManager?.isReady` once per
`#attemptInterval` milliseconds, resolving as soon as the flag is seen and
rejecting once `attempts >= this.#maxAttempts`.  The environment is modelled
by `available : Nat -> Bool`, giving the value of the readiness flag at each
numbered check.  The result records whether the promise resolved and how many
checks were performed. -/

/-- The `#maxAttempts` private field of `UdoPaintsEditorManager`. -/
def maxAttempts : Nat := 50

/-- The `#attemptInterval` private field (milliseconds between polls). -/
def attemptInterval : Nat := 100

/-- Embeds the recursive `checkManager` closure inside `waitForManager`:
increment `attempts`, resolve if the manager is ready, reject once the
attempt bound is reached, otherwise schedule another check. -/
def checkManager (available : Nat → Bool) (maxA attempts : Nat) : Bool × Nat :=
  if available (attempts + 1) then (true, attempts + 1)
  else if maxA ≤ attempts + 1 then (false, attempts + 1)
  else checkManager available maxA (attempts + 1)
termination_by maxA - attempts
decreasing_by simp_wf; omega

/-- Embeds `UdoPaintsEditorManager.waitForManager`. -/
def waitForManager (available : Nat → Bool) : Bool × Nat :=
  checkManager available maxAttempts 0

lemma checkManager_count_le (available : Nat → Bool) :
    ∀ k m a, m - a ≤ k → a < m → (checkManager available m a).2 ≤ m := by
  intro k
  induction k with
  | zero => intro m a h1 h2; omega
  | succ k ih =>
      intro m a h1 h2
      rw [checkManager]
      split
      · show a + 1 ≤ m
        omega
      · split
        · show a + 1 ≤ m
          omega
        · exact ih m (a + 1) (by omega) (by omega)

lemma checkManager_never (available : Nat → Bool) (hav : ∀ n, available n = false) :
    ∀ k m a, m - a ≤ k → a < m → checkManager available m a = (false, m) := by
  intro k
  induction k with
  | zero => intro m a h1 h2; omega
  | succ k ih =>
      intro m a h1 h2
      rw [checkManager]
      rw [hav (a + 1)]
      simp only [Bool.false_eq_true, if_false]
      by_cases hm : m ≤ a + 1
      · have hma : m = a + 1 := by omega
        rw [if_pos hm, hma]
      · rw [if_neg hm]
        exact ih m (a + 1) (by omega) (by omega)

/-- C8: the availability wait is a bounded poll: every execution performs at
most `maxAttempts` checks, and when the global manager object never becomes
ready the wait stops and reports failure after exactly the configured maximum
number of attempts instead of retrying forever. -/
theorem wait_for_manager_bounded (available : Nat → Bool) :
    (waitForManager available).2 ≤ maxAttempts ∧
    ((∀ n, available n = false) → waitForManager available = (false, maxAttempts)) := by
  constructor
  · exact checkManager_count_le available maxAttempts maxAttempts 0 (by omega)
      (by simp [maxAttempts])
  · intro hav
    exact checkManager_never available hav maxAttempts maxAttempts 0 (by omega)
      (by simp [maxAttempts])

/-- Witness for C8: with a manager that never becomes ready, the wait fails
after exactly 50 checks. -/
theorem wait_for_manager_bounded_witness :
    waitForManager (fun _ => false) = (false, 50) :=
  (wait_for_manager_bounded (fun _ => false)).2 (fun _ => rfl)

/-- C10: recording a dismissal is idempotent: saving a product id appends it
only when absent, so the stored list already containing the id is returned
unchanged, a saved id is always present afterwards, and saving preserves
freedom from duplicates. -/
theorem save_dismissed_idempotent (stored : List String) (productId : String) :
    saveDismissedState (saveDismissedState stored productId) productId =
        saveDismissedState stored productId ∧
    productId ∈ saveDismissedState stored productId ∧
    (stored.Nodup → (saveDismissedState stored productId).Nodup) := by
  refine ⟨?_, ?_, ?_⟩
  · by_cases h : productId ∈ stored
    · simp [saveDismissedState, h]
    · simp [saveDismissedState, h]
  · by_cases h : productId ∈ stored
    · simp [saveDismissedState, h]
    · simp [saveDismissedState, h]
  · intro hnd
    by_cases h : productId ∈ stored
    · simpa [saveDismissedState, h] using hnd
    · rw [saveDismissedState, if_neg h]
      exact List.Nodup.append hnd (by simp) (by simpa using h)

/-- Witness for C10: saving an already-saved id leaves the stored list
unchanged and duplicate-free. -/
theorem save_dismissed_idempotent_witness :
    saveDismissedState (saveDismissedState ["1001", "1002"] "1003") "1003" =
        saveDismissedState ["1001", "1002"] "1003" ∧
    (saveDismissedState ["1001", "1002"] "1003").Nodup :=
  ⟨(save_dismissed_idempotent ["1001", "1002"] "1003").1,
   (save_dismissed_idempotent ["1001", "1002"] "1003").2.2 (by decide)⟩

/-! ## App-bridge async wrappers (editor integration utility script)

The global `UdoPaintsEditorManager` instance wraps the third-party
`window.UdoPaintsEditor` object.  Each wrapper returns a promise that is
resolved inside an `onReady` callback: the callback runs only once
`checkAvailability` has seen `window.UdoPaintsEditor`, and its `try/catch`
converts a thrown error into a `{success:false, error}` result.

The embedding models the editor's eventual availability as
`Option EditorApp` (`none` = the global object never appears, so queued
`onReady` callbacks never run and the promise never settles) and each
external method as `Except String _` (`.error msg` = the method throws an
exception whose `message` is `msg`). -/

/-- Result object shape returned by the bridge methods. -/
structure BridgeCallResult where
  success : Bool
  error : Option String
  feature : Option String
deriving DecidableEq

/-- The external `window.UdoPaintsEditor` object: each method either returns
a result or throws. -/
structure EditorApp where
  onAddToCart : Except String BridgeCallResult
  afterAddToCart : Except String BridgeCallResult
  isReadyToExport : Except String BridgeCallResult
  uploadImage : Except String BridgeCallResult

/-- Models `error.message || 'fallback'`: an empty (falsy) message is
replaced by the fallback text. -/
def jsMessageOr (msg fallback : String) : String :=
  if msg = "" then fallback else msg

/-- Embeds `UdoPaintsEditorManager.onAddToCart` from the editor integration
utility: once the editor is available, forward the call and convert a thrown
error into a `{success:false, error}` result; if the editor never appears the
promise never settles (`none`). -/
def managerOnAddToCart (editor : Option EditorApp) : Option BridgeCallResult :=
  editor.map fun ed =>
    match ed.onAddToCart with
    | .ok r => r
    | .error msg =>
        { success := false, error := some (jsMessageOr msg "Failed to call onAddToCart"),
          feature := none }

/-- Embeds `UdoPaintsEditorManager.afterAddToCart`. -/
def managerAfterAddToCart (editor : Option EditorApp) : Option BridgeCallResult :=
  editor.map fun ed =>
    match ed.afterAddToCart with
    | .ok r => r
    | .error msg =>
        { success := false, error := some (jsMessageOr msg "Failed to call afterAddToCart"),
          feature := none }

/-- Embeds `UdoPaintsEditorManager.isReadyToExport`. -/
def managerIsReadyToExport (editor : Option EditorApp) : Option BridgeCallResult :=
  editor.map fun ed =>
    match ed.isReadyToExport with
    | .ok r => r
    | .error msg =>
        { success := false, error := some (jsMessageOr msg "Failed to call isReadyToExport"),
          feature := none }

/-- Embeds `UdoPaintsEditorManager.uploadImage` (its failure result also
carries `feature: ''`). -/
def managerUploadImage (editor : Option EditorApp) : Option BridgeCallResult :=
  editor.map fun ed =>
    match ed.uploadImage with
    | .ok r => r
    | .error msg =>
        { success := false, error := some (jsMessageOr msg "Failed to call uploadImage"),
          feature := some "" }

/-- Counterexample for C7: when the bridge never becomes available, a wrapper
call does not resolve to a `{success:false, error}` failure result — it never
settles at all (the `onReady` callback stays queued forever), refuting the
claim that bridge unavailability resolves to the uniform failure shape. -/
theorem bridge_unavailable_never_settles :
    managerOnAddToCart none = none ∧
    ¬ ∃ r : BridgeCallResult, managerOnAddToCart none = some r ∧ r.success = false := by
  refine ⟨rfl, ?_⟩
  rintro ⟨r, hr, -⟩
  simp [managerOnAddToCart] at hr

/-- C7 (amended): once the editor object is available, a thrown error from
any of the four wrapped methods resolves to a uniform failure result with
`success = false` and an `error` field (never propagating the exception),
while a never-available bridge leaves the call pending (it neither resolves
nor propagates). -/
theorem bridge_wrappers_uniform_failure (ed : EditorApp) (msg : String) :
    (ed.onAddToCart = .error msg →
      ∃ r, managerOnAddToCart (some ed) = some r ∧ r.success = false ∧ r.error.isSome) ∧
    (ed.afterAddToCart = .error msg →
      ∃ r, managerAfterAddToCart (some ed) = some r ∧ r.success = false ∧ r.error.isSome) ∧
    (ed.isReadyToExport = .error msg →
      ∃ r, managerIsReadyToExport (some ed) = some r ∧ r.success = false ∧ r.error.isSome) ∧
    (ed.uploadImage = .error msg →
      ∃ r, managerUploadImage (some ed) = some r ∧ r.success = false ∧ r.error.isSome) ∧
    managerOnAddToCart none = none ∧ managerAfterAddToCart none = none ∧
    managerIsReadyToExport none = none ∧ managerUploadImage none = none := by
  refine ⟨?_, ?_, ?_, ?_, rfl, rfl, rfl, rfl⟩ <;> intro h
  · exact ⟨{ success := false,
             error := some (jsMessageOr msg "Failed to call onAddToCart"), feature := none },
      by simp [managerOnAddToCart, h], rfl, rfl⟩
  · exact ⟨{ success := false,
             error := some (jsMessageOr msg "Failed to call afterAddToCart"), feature := none },
      by simp [managerAfterAddToCart, h], rfl, rfl⟩
  · exact ⟨{ success := false,
             error := some (jsMessageOr msg "Failed to call isReadyToExport"), feature := none },
      by simp [managerIsReadyToExport, h], rfl, rfl⟩
  · exact ⟨{ success := false,
             error := some (jsMessageOr msg "Failed to call uploadImage"), feature := some "" },
      by simp [managerUploadImage, h], rfl, rfl⟩

/-- Witness for C7 (amended): a concrete editor whose methods all throw makes
every wrapper resolve to a `success = false` result with an error message. -/
theorem bridge_wrappers_uniform_failure_witness :
    ∃ r, managerOnAddToCart
        (some ⟨.error "boom", .error "boom", .error "boom", .error "boom"⟩) = some r ∧
      r.success = false ∧ r.error.isSome :=
  (bridge_wrappers_uniform_failure
    ⟨.error "boom", .error "boom", .error "boom", .error "boom"⟩ "boom").1 rfl

/-! ## Upsell item visibility (`UpsellProducts.hideUpsellProduct` /
`UpsellProducts.showUpsellProduct`, `assets/upsell-products.js`)

An upsell item element is modelled by its effective CSS display value and the
checked state of its selection checkbox.  The component state consists of the
`#hiddenUpsellProducts` set and the single shared `#originalDisplayValue`
field.  Dispatched DOM events are collected in a list so that observability
by listeners can be stated. -/

/-- An `.upsell-product__item` element together with its checkbox. -/
structure UpsellItem where
  display : String
  checked : Bool
deriving DecidableEq

/-- The component-level mutable state touched by hide/show. -/
structure VisibilityState where
  hiddenUpsellProducts : List String
  originalDisplayValue : Option String
deriving DecidableEq

/-- DOM events dispatched by the visibility operations. -/
inductive DomEvent
  | change
deriving DecidableEq

/-- Models `Set.prototype.add`. -/
def setAdd (s : List String) (x : String) : List String :=
  if x ∈ s then s else s ++ [x]

/-- Embeds `UpsellProducts.hideUpsellProduct`: guard on a missing item or a
falsy id, capture the current non-`none` display value in the shared
`#originalDisplayValue` field, add the id to the hidden set, set the item's
display to `none`, and uncheck a checked checkbox, dispatching a `change`
event.  Returns the new component state, the updated item, and the events
dispatched. -/
def hideUpsellProduct (st : VisibilityState) (upsellId : String)
    (item : Option UpsellItem) : VisibilityState × Option UpsellItem × List DomEvent :=
  match item with
  | none => (st, none, [])
  | some it =>
      if upsellId = "" then (st, some it, [])
      else
        let st1 := if it.display ≠ "none"
          then { st with originalDisplayValue := some it.display } else st
        let st2 := { st1 with
          hiddenUpsellProducts := setAdd st1.hiddenUpsellProducts upsellId }
        if it.checked then
          (st2, some { display := "none", checked := false }, [DomEvent.change])
        else
          (st2, some { display := "none", checked := false }, [])

/-- Embeds `UpsellProducts.showUpsellProduct`: guard on a missing item,
delete the id from the hidden set, and restore the shared
`#originalDisplayValue` when truthy, falling back to `block`. -/
def showUpsellProduct (st : VisibilityState) (upsellId : String)
    (item : Option UpsellItem) : VisibilityState × Option UpsellItem :=
  match item with
  | none => (st, none)
  | some it =>
      let st1 := { st with
        hiddenUpsellProducts := st.hiddenUpsellProducts.filter (fun x => x ≠ upsellId) }
      match st.originalDisplayValue with
      | some v =>
          if v ≠ "" then (st1, some { it with display := v })
          else (st1, some { it with display := "block" })
      | none => (st1, some { it with display := "block" })

/-- C4: hiding an upsell item always leaves its checkbox unchecked (the item
is displayed as `none` and never remains selected), and when the checkbox was
checked at the moment of hiding, a `change` event is dispatched so the change
is observable by listeners. -/
theorem hide_unchecks_checkbox (st : VisibilityState) (upsellId : String)
    (it : UpsellItem) (hid : upsellId ≠ "") :
    ∃ it2 evs, hideUpsellProduct st upsellId (some it) = ((hideUpsellProduct st upsellId (some it)).1, some it2, evs) ∧
      it2.checked = false ∧ it2.display = "none" ∧
      (it.checked = true → DomEvent.change ∈ evs) := by
  by_cases hc : it.checked
  · exact ⟨{ display := "none", checked := false }, [DomEvent.change],
      by simp [hideUpsellProduct, hid, hc], rfl, rfl, fun _ => by simp⟩
  · exact ⟨{ display := "none", checked := false }, [],
      by simp [hideUpsellProduct, hid, hc], rfl, rfl, fun h => absurd h hc⟩

/-- Witness for C4: hiding a checked `flex` item unchecks it and dispatches a
`change` event. -/
theorem hide_unchecks_checkbox_witness :
    ∃ it2 evs,
      hideUpsellProduct ⟨[], none⟩ "u1" (some ⟨"flex", true⟩) =
        ((hideUpsellProduct ⟨[], none⟩ "u1" (some ⟨"flex", true⟩)).1, some it2, evs) ∧
      it2.checked = false ∧ it2.display = "none" ∧
      (true = true → DomEvent.change ∈ evs) :=
  hide_unchecks_checkbox ⟨[], none⟩ "u1" ⟨"flex", true⟩ (by decide)

/-- Counterexample for C5: `#originalDisplayValue` is one shared field, not a
per-item capture.  Hide a `flex` item, then a `grid` item, then show the
first: it comes back with display `grid`, not its own captured `flex`. -/
theorem show_restores_shared_value_cex :
    (showUpsellProduct
      (hideUpsellProduct
        (hideUpsellProduct ⟨[], none⟩ "a" (some ⟨"flex", false⟩)).1
        "b" (some ⟨"grid", false⟩)).1
      "a"
      (hideUpsellProduct ⟨[], none⟩ "a" (some ⟨"flex", false⟩)).2.1).2 =
        some ⟨"grid", false⟩ ∧
    ("grid" : String) ≠ "flex" := by
  constructor
  · rfl
  · decide

/-- C5 (amended): the show operation restores the single most recently
captured non-`none` display value, shared across all items.  In particular,
hiding an item and showing it again with no intervening hide restores that
item's own prior display mode (and the hide indeed captures it into the
shared field); with several display modes in play, the last capture wins. -/
theorem hide_show_restores_display (st : VisibilityState) (upsellId : String)
    (it : UpsellItem) (hid : upsellId ≠ "") (hdisp : it.display ≠ "none")
    (hdisp2 : it.display ≠ "") :
    (hideUpsellProduct st upsellId (some it)).1.originalDisplayValue = some it.display ∧
    (showUpsellProduct (hideUpsellProduct st upsellId (some it)).1 upsellId
        (hideUpsellProduct st upsellId (some it)).2.1).2 =
      some { display := it.display, checked := false } := by
  by_cases hc : it.checked
  · constructor
    · simp [hideUpsellProduct, hid, hdisp, hc]
    · simp [hideUpsellProduct, showUpsellProduct, hid, hdisp, hdisp2, hc]
  · constructor
    · simp [hideUpsellProduct, hid, hdisp, hc]
    · simp [hideUpsellProduct, showUpsellProduct, hid, hdisp, hdisp2, hc]

/-- Witness for C5 (amended): hiding and re-showing a single `flex` item
restores `flex` rather than forcing `block`. -/
theorem hide_show_restores_display_witness :
    (hideUpsellProduct ⟨[], none⟩ "u1" (some ⟨"flex", true⟩)).1.originalDisplayValue =
        some "flex" ∧
    (showUpsellProduct (hideUpsellProduct ⟨[], none⟩ "u1" (some ⟨"flex", true⟩)).1 "u1"
        (hideUpsellProduct ⟨[], none⟩ "u1" (some ⟨"flex", true⟩)).2.1).2 =
      some { display := "flex", checked := false } :=
  hide_show_restores_display ⟨[], none⟩ "u1" ⟨"flex", true⟩ (by decide) (by decide) (by decide)

/-! ## Variant matching (`VariantMatcher`, `assets/upsell-products.js`)

JavaScript string primitives used by the matcher are embedded explicitly on
the character list underlying a `String`, so that every definition is
executable by the kernel: `jsToLowerCase` models `String.prototype.toLowerCase`
for the ASCII data handled here. -/

/-- Models `String.prototype.toLowerCase`. -/
def jsToLowerCase (s : String) : String := ⟨s.data.map Char.toLower⟩

/-- The `Variant` shape from the embedded product JSON
(`@typedef Variant` in `assets/upsell-products.js`). -/
structure Variant where
  id : String
  name : String
  title : String
  options : List String
  price : Int
  compare_at_price : Int
deriving DecidableEq

/-- One iteration of the `forEach` loop in
`VariantMatcher.calculateMatchScore`: for option position `p.1` with option
name `p.2`, when the candidate's option value at that position and the main
mapping's value for that name are both present and non-empty (truthy), the
total counter is incremented, and the match counter too when the values agree
case-insensitively.  The accumulator is `(matchScore, totalOptions)`. -/
def scoreStep (upsellVariant : Variant) (mainProductVariants : List (String × String))
    (acc : Nat × Nat) (p : Nat × String) : Nat × Nat :=
  match upsellVariant.options.get? p.1, mainProductVariants.lookup p.2 with
  | some s, some m =>
      if s ≠ "" ∧ m ≠ "" then
        (if jsToLowerCase s = jsToLowerCase m then acc.1 + 1 else acc.1, acc.2 + 1)
      else acc
  | _, _ => acc

/-- Embeds `VariantMatcher.calculateMatchScore`: run the counting loop over
the upsell option names with their indices, then return
`(matchScore / totalOptions) * 100`, or `0` when `totalOptions` is zero. -/
def calculateMatchScore (upsellVariant : Variant) (upsellProductOptions : List String)
    (mainProductVariants : List (String × String)) : ℚ :=
  let counts := upsellProductOptions.enum.foldl (scoreStep upsellVariant mainProductVariants) (0, 0)
  if 0 < counts.2 then (counts.1 : ℚ) / (counts.2 : ℚ) * 100 else 0

/-- Comparability of one option position, as the code implements it: the
candidate variant has a non-empty value at the position and the main mapping
has a non-empty value under the option name. -/
def comparableTest (v : Variant) (main : List (String × String)) (p : Nat × String) : Bool :=
  match v.options.get? p.1, main.lookup p.2 with
  | some s, some m => s != "" && m != ""
  | _, _ => false

/-- A comparable position whose two values agree case-insensitively. -/
def scoreMatchTest (v : Variant) (main : List (String × String)) (p : Nat × String) : Bool :=
  match v.options.get? p.1, main.lookup p.2 with
  | some s, some m => s != "" && m != "" && jsToLowerCase s == jsToLowerCase m
  | _, _ => false

/-- The match-score formula of the amended claim: the denominator counts the
comparable positions (as `comparableTest`), the numerator the
case-insensitively matching ones, and the score is numerator/denominator
x 100, or 0 when the denominator is 0. -/
def matchScoreSpec (v : Variant) (opts : List String) (main : List (String × String)) : ℚ :=
  let den := (opts.enum.filter (comparableTest v main)).length
  let num := (opts.enum.filter (scoreMatchTest v main)).length
  if 0 < den then (num : ℚ) / (den : ℚ) * 100 else 0

/-- The match-score formula exactly as the original claim states it: one
denominator unit for every option position whose name is present in the main
mapping (regardless of either value being empty or the candidate lacking a
value at that position), one numerator unit when the two values match
case-insensitively. -/
def matchScoreClaimed (v : Variant) (opts : List String) (main : List (String × String)) : ℚ :=
  let den := (opts.filter (fun name => (main.lookup name).isSome)).length
  let num := (opts.enum.filter (fun p =>
      match v.options.get? p.1, main.lookup p.2 with
      | some s, some m => jsToLowerCase s == jsToLowerCase m
      | _, _ => false)).length
  if 0 < den then (num : ℚ) / (den : ℚ) * 100 else 0

lemma scoreStep_eq (v : Variant) (main : List (String × String))
    (acc : Nat × Nat) (p : Nat × String) :
    scoreStep v main acc p =
      (acc.1 + (if scoreMatchTest v main p then 1 else 0),
       acc.2 + (if comparableTest v main p then 1 else 0)) := by
  rcases hg : v.options.get? p.1 with _ | s <;> rcases hl : main.lookup p.2 with _ | m <;>
    simp only [scoreStep, comparableTest, scoreMatchTest, hg, hl, if_false,
      Bool.false_eq_true, Nat.add_zero]
  · by_cases hs : s = "" <;> by_cases hm : m = "" <;>
      by_cases ht : jsToLowerCase s = jsToLowerCase m <;>
      simp [hs, hm, ht]

lemma scoreStep_foldl (v : Variant) (main : List (String × String)) :
    ∀ (l : List (Nat × String)) (acc : Nat × Nat),
      l.foldl (scoreStep v main) acc =
        (acc.1 + (l.filter (scoreMatchTest v main)).length,
         acc.2 + (l.filter (comparableTest v main)).length) := by
  intro l
  induction l with
  | nil => intro acc; simp
  | cons p t ih =>
      intro acc
      rw [List.foldl_cons, ih, scoreStep_eq, List.filter_cons, List.filter_cons]
      by_cases h1 : scoreMatchTest v main p <;> by_cases h2 : comparableTest v main p <;>
        simp [h1, h2] <;> omega

/-- C2 (amended): the match score equals the claimed formula once
"comparable" is corrected to require a non-empty candidate value at the
position and a non-empty value under the option name in the main mapping:
the denominator counts comparable positions, the numerator the
case-insensitive matches among them, and the score is
numerator/denominator x 100, or 0 when there is no comparable option. -/
theorem match_score_formula (v : Variant) (opts : List String)
    (main : List (String × String)) :
    calculateMatchScore v opts main = matchScoreSpec v opts main := by
  unfold calculateMatchScore matchScoreSpec
  rw [scoreStep_foldl]
  simp

/-- Counterexample for C2: a candidate with a single option value `Large`
against upsell option names `Size, Color` and main mapping
`Size=Large, Color=Red`.  Both names are present in the main mapping, so the
claimed formula gives 1/2 x 100 = 50, but the code skips the position where
the candidate has no value and returns 1/1 x 100 = 100. -/
theorem match_score_cex :
    calculateMatchScore ⟨"v1", "V1", "V1", ["Large"], 0, 0⟩ ["Size", "Color"]
        [("Size", "Large"), ("Color", "Red")] = 100 ∧
    matchScoreClaimed ⟨"v1", "V1", "V1", ["Large"], 0, 0⟩ ["Size", "Color"]
        [("Size", "Large"), ("Color", "Red")] = 50 ∧
    calculateMatchScore ⟨"v1", "V1", "V1", ["Large"], 0, 0⟩ ["Size", "Color"]
        [("Size", "Large"), ("Color", "Red")] ≠
      matchScoreClaimed ⟨"v1", "V1", "V1", ["Large"], 0, 0⟩ ["Size", "Color"]
        [("Size", "Large"), ("Color", "Red")] := by
  have hcode : (["Size", "Color"].enum.foldl
      (scoreStep ⟨"v1", "V1", "V1", ["Large"], 0, 0⟩
        [("Size", "Large"), ("Color", "Red")]) (0, 0)) = (1, 1) := by decide
  have hden : ((["Size", "Color"].filter
      (fun name => (([("Size", "Large"), ("Color", "Red")] :
        List (String × String)).lookup name).isSome)).length) = 2 := by decide
  have hnum : ((["Size", "Color"].enum.filter (fun p =>
      match (⟨"v1", "V1", "V1", ["Large"], 0, 0⟩ : Variant).options.get? p.1,
        ([("Size", "Large"), ("Color", "Red")] : List (String × String)).lookup p.2 with
      | some s, some m => jsToLowerCase s == jsToLowerCase m
      | _, _ => false)).length) = 1 := by decide
  refine ⟨?_, ?_, ?_⟩
  · unfold calculateMatchScore
    rw [hcode]
    norm_num
  · unfold matchScoreClaimed
    rw [hden, hnum]
    norm_num
  · unfold calculateMatchScore matchScoreClaimed
    rw [hcode, hden, hnum]
    norm_num

/-- The reducer inside `VariantMatcher.findBestMatchingUpsellVariant`:
`current.matchScore > best.matchScore ? current : best`, over pairs of
`(variantId, matchScore)`. -/
def pickBetter (best current : Option String × ℚ) : Option String × ℚ :=
  if best.2 < current.2 then current else best

/-- Embeds `VariantMatcher.findBestMatchingUpsellVariant`: guard on a falsy
product id, default missing variant/option tables to `[]`, return `null` for
an empty variant list, and otherwise reduce the scored variants starting from
`{variantId: null, matchScore: 0}`. -/
def findBestMatchingUpsellVariant (mainProductVariants : List (String × String))
    (upsellProductId : String) (upsellVariants : List (String × List Variant))
    (upsellOptions : List (String × List String)) : Option String :=
  if upsellProductId = "" then none
  else
    let upsellProductVariants := (upsellVariants.lookup upsellProductId).getD []
    let upsellProductOptions := (upsellOptions.lookup upsellProductId).getD []
    if upsellProductVariants.length = 0 then none
    else
      ((upsellProductVariants.map (fun variant =>
          ((some variant.id : Option String),
           calculateMatchScore variant upsellProductOptions mainProductVariants))).foldl
        pickBetter ((none : Option String), (0 : ℚ))).1

/-- Embeds `VariantMatcher.findBestMatchVariant`: guard on a falsy product
id, look the winning id back up with `find`, and fall back to the first
variant of the upsell product, or `null` when there is none. -/
def findBestMatchVariant (mainProductVariants : List (String × String))
    (upsellProductId : String) (upsellVariants : List (String × List Variant))
    (upsellOptions : List (String × List String)) : Option Variant :=
  if upsellProductId = "" then none
  else
    let bestMatchVariantId := findBestMatchingUpsellVariant mainProductVariants
      upsellProductId upsellVariants upsellOptions
    let currentUpsellVariants := upsellVariants.lookup upsellProductId
    let bestMatchVariant : Option Variant :=
      match currentUpsellVariants, bestMatchVariantId with
      | some vs, some b => vs.find? (fun variant => variant.id == b)
      | _, _ => none
    match bestMatchVariant with
    | some v => some v
    | none =>
        match currentUpsellVariants with
        | some vs => vs.head?
        | none => none

lemma pickBetter_foldl_of_le (l : List (Option String × ℚ)) :
    ∀ acc : Option String × ℚ, (∀ p ∈ l, p.2 ≤ acc.2) → l.foldl pickBetter acc = acc := by
  induction l with
  | nil => intro acc _; rfl
  | cons p t ih =>
      intro acc h
      rw [List.foldl_cons]
      have hp : ¬ acc.2 < p.2 := not_lt.mpr (h p (by simp))
      have hstep : pickBetter acc p = acc := by rw [pickBetter, if_neg hp]
      rw [hstep]
      exact ih acc (fun q hq => h q (by simp [hq]))

lemma pickBetter_foldl_first_max (M : ℚ) :
    ∀ (l : List (Option String × ℚ)) (acc : Option String × ℚ) (q : Option String × ℚ),
      (∀ p ∈ l, p.2 ≤ M) → acc.2 < M →
      l.find? (fun p => p.2 == M) = some q → l.foldl pickBetter acc = q := by
  intro l
  induction l with
  | nil => intro acc q _ _ hf; simp at hf
  | cons p t ih =>
      intro acc q hub hacc hf
      by_cases hp : ((fun x : Option String × ℚ => x.2 == M) p) = true
      · rw [List.find?_cons_of_pos t hp] at hf
        have hq : p = q := by injection hf
        have hpM : p.2 = M := by simpa using hp
        rw [List.foldl_cons]
        have hstep : pickBetter acc p = p := by
          rw [pickBetter, if_pos (by rw [hpM]; exact hacc)]
        rw [hstep, ← hq]
        exact pickBetter_foldl_of_le t p
          (fun r hr => by rw [hpM]; exact hub r (by simp [hr]))
      · rw [List.find?_cons_of_neg t hp] at hf
        have hpM : p.2 ≠ M := by simpa using hp
        have hplt : p.2 < M := lt_of_le_of_ne (hub p (by simp)) hpM
        rw [List.foldl_cons]
        have hacc2 : (pickBetter acc p).2 < M := by
          rw [pickBetter]
          split
          · exact hplt
          · exact hacc
        exact ih (pickBetter acc p) q (fun r hr => hub r (by simp [hr])) hacc2 hf

lemma find?_by_id_of_nodup (vs : List Variant) (v0 : Variant)
    (hnd : (vs.map Variant.id).Nodup) (hmem : v0 ∈ vs) :
    vs.find? (fun v => v.id == v0.id) = some v0 := by
  induction vs with
  | nil => cases hmem
  | cons h t ih =>
      rw [List.map_cons, List.nodup_cons] at hnd
      rcases List.mem_cons.mp hmem with rfl | hmem2
      · exact List.find?_cons_of_pos t
          (show (fun v : Variant => v.id == v0.id) v0 = true by simp)
      · by_cases hh : ((fun v : Variant => v.id == v0.id) h) = true
        · have hid : h.id = v0.id := by simpa using hh
          have hin : h.id ∈ t.map Variant.id := by
            rw [hid]
            exact List.mem_map_of_mem Variant.id hmem2
          exact absurd hin hnd.1
        · rw [List.find?_cons_of_neg t hh]
          exact ih hnd.2 hmem2

lemma findBestMatchVariant_some_lookup (main : List (String × String)) (pid : String)
    (uV : List (String × List Variant)) (uO : List (String × List String))
    (vs' : List Variant) (hpid : pid ≠ "") (hlook : uV.lookup pid = some vs') :
    findBestMatchVariant main pid uV uO =
      match findBestMatchingUpsellVariant main pid uV uO with
      | some b =>
          match vs'.find? (fun variant => variant.id == b) with
          | some v => some v
          | none => vs'.head?
      | none => vs'.head? := by
  rw [findBestMatchVariant, if_neg hpid, hlook]
  cases findBestMatchingUpsellVariant main pid uV uO with
  | none => rfl
  | some b => cases vs'.find? (fun variant => variant.id == b) <;> rfl

lemma findBestMatchVariant_none_lookup (main : List (String × String)) (pid : String)
    (uV : List (String × List Variant)) (uO : List (String × List String))
    (hpid : pid ≠ "") (hlook : uV.lookup pid = none) :
    findBestMatchVariant main pid uV uO = none := by
  rw [findBestMatchVariant, if_neg hpid, hlook]

lemma fbmu_all_zero (main : List (String × String)) (pid : String)
    (uV : List (String × List Variant)) (uO : List (String × List String))
    (vs' : List Variant) (hpid : pid ≠ "") (hlook : uV.lookup pid = some vs')
    (hz : ∀ v ∈ vs', calculateMatchScore v ((uO.lookup pid).getD []) main = 0) :
    findBestMatchingUpsellVariant main pid uV uO = none := by
  rw [findBestMatchingUpsellVariant, if_neg hpid, hlook]
  simp only [Option.getD_some]
  by_cases hlen : vs'.length = 0
  · rw [if_pos hlen]
  · rw [if_neg hlen]
    rw [pickBetter_foldl_of_le _ _ ?ub]
    case ub =>
      intro p hp
      rcases List.mem_map.mp hp with ⟨v, hv, rfl⟩
      exact le_of_eq (hz v hv)

lemma fbmu_max (main : List (String × String)) (pid : String)
    (uV : List (String × List Variant)) (uO : List (String × List String))
    (vs' : List Variant) (M : ℚ) (v0 : Variant)
    (hpid : pid ≠ "") (hlook : uV.lookup pid = some vs') (hM : 0 < M)
    (hub : ∀ v ∈ vs', calculateMatchScore v ((uO.lookup pid).getD []) main ≤ M)
    (hfind : vs'.find?
        (fun v => calculateMatchScore v ((uO.lookup pid).getD []) main == M) = some v0) :
    findBestMatchingUpsellVariant main pid uV uO = some v0.id := by
  rw [findBestMatchingUpsellVariant, if_neg hpid, hlook]
  simp only [Option.getD_some]
  have hne : vs' ≠ [] := by
    rintro rfl
    simp at hfind
  rw [if_neg (fun h => hne (List.length_eq_zero.mp h))]
  have hmapfind : (vs'.map (fun variant =>
        ((some variant.id : Option String),
         calculateMatchScore variant ((uO.lookup pid).getD []) main))).find?
      (fun p => p.2 == M) = some
        ((some v0.id : Option String),
         calculateMatchScore v0 ((uO.lookup pid).getD []) main) := by
    rw [List.find?_map]
    show (vs'.find?
        (fun v => calculateMatchScore v ((uO.lookup pid).getD []) main == M)).map _ = _
    rw [hfind]
    rfl
  have hfold := pickBetter_foldl_first_max M _ ((none : Option String), (0 : ℚ)) _
    (fun p hp => by
      rcases List.mem_map.mp hp with ⟨v, hv, rfl⟩
      exact hub v hv)
    hM hmapfind
  rw [hfold]

/-- C1: for an upsell product (truthy id, duplicate-free variant ids), the
best-match selection returns `null` exactly when the product's variant list
is empty; when no candidate scores above 0 it falls back to the product's
first variant; and when a positive maximum score exists it returns the
first-encountered candidate attaining that maximum (stable tie-break). -/
theorem best_match_selection (mainProductVariants : List (String × String))
    (upsellProductId : String)
    (upsellVariants : List (String × List Variant))
    (upsellOptions : List (String × List String))
    (hpid : upsellProductId ≠ "")
    (hnd : (((upsellVariants.lookup upsellProductId).getD []).map Variant.id).Nodup) :
    (findBestMatchVariant mainProductVariants upsellProductId upsellVariants upsellOptions =
        none ↔ (upsellVariants.lookup upsellProductId).getD [] = []) ∧
    (∀ v0 t, (upsellVariants.lookup upsellProductId).getD [] = v0 :: t →
        (∀ v ∈ (upsellVariants.lookup upsellProductId).getD [],
          calculateMatchScore v ((upsellOptions.lookup upsellProductId).getD [])
            mainProductVariants = 0) →
        findBestMatchVariant mainProductVariants upsellProductId upsellVariants upsellOptions =
          some v0) ∧
    (∀ M : ℚ, 0 < M →
        (∃ v ∈ (upsellVariants.lookup upsellProductId).getD [],
          calculateMatchScore v ((upsellOptions.lookup upsellProductId).getD [])
            mainProductVariants = M) →
        (∀ v ∈ (upsellVariants.lookup upsellProductId).getD [],
          calculateMatchScore v ((upsellOptions.lookup upsellProductId).getD [])
            mainProductVariants ≤ M) →
        findBestMatchVariant mainProductVariants upsellProductId upsellVariants upsellOptions =
          ((upsellVariants.lookup upsellProductId).getD []).find?
            (fun v => calculateMatchScore v ((upsellOptions.lookup upsellProductId).getD [])
              mainProductVariants == M)) := by
  rcases hlook : upsellVariants.lookup upsellProductId with _ | vs' <;>
    simp only [hlook, Option.getD_none, Option.getD_some] at hnd ⊢
  · refine ⟨?_, ?_, ?_⟩
    · rw [findBestMatchVariant_none_lookup mainProductVariants upsellProductId
        upsellVariants upsellOptions hpid hlook]
      simp
    · intro v0 t hvt
      simp at hvt
    · rintro M _ ⟨v, hv, _⟩ _
      simp at hv
  · refine ⟨?_, ?_, ?_⟩
    · rw [findBestMatchVariant_some_lookup mainProductVariants upsellProductId
        upsellVariants upsellOptions vs' hpid hlook]
      cases vs' with
      | nil =>
          cases hbid : findBestMatchingUpsellVariant mainProductVariants upsellProductId
              upsellVariants upsellOptions <;> simp
      | cons v0 t =>
          cases hbid : findBestMatchingUpsellVariant mainProductVariants upsellProductId
              upsellVariants upsellOptions with
          | none => simp
          | some b =>
              simp only []
              cases hfind : (v0 :: t).find? (fun variant => variant.id == b) <;> simp
    · intro v0 t hvt hz
      subst hvt
      have hbid := fbmu_all_zero mainProductVariants upsellProductId upsellVariants
        upsellOptions (v0 :: t) hpid hlook hz
      rw [findBestMatchVariant_some_lookup mainProductVariants upsellProductId
        upsellVariants upsellOptions (v0 :: t) hpid hlook, hbid]
      rfl
    · intro M hM hex hub
      rcases hex with ⟨vmax, hvmem, hvM⟩
      have hsome : ((vs'.find? (fun v => calculateMatchScore v
          ((upsellOptions.lookup upsellProductId).getD []) mainProductVariants == M)).isSome)
          = true :=
        List.find?_isSome.mpr ⟨vmax, hvmem, by simpa using hvM⟩
      rcases Option.isSome_iff_exists.mp hsome with ⟨v0, hfind⟩
      have hbid := fbmu_max mainProductVariants upsellProductId upsellVariants
        upsellOptions vs' M v0 hpid hlook hM hub hfind
      have hv0mem : v0 ∈ vs' := List.mem_of_find?_eq_some hfind
      rw [findBestMatchVariant_some_lookup mainProductVariants upsellProductId
        upsellVariants upsellOptions vs' hpid hlook, hbid, hfind]
      show (match vs'.find? (fun variant => variant.id == v0.id) with
            | some v => some v
            | none => vs'.head?) = some v0
      rw [find?_by_id_of_nodup vs' v0 hnd hv0mem]

/-- Witness for C1: with no comparable options every candidate scores 0, and
the selection falls back to the upsell product's first variant. -/
theorem best_match_selection_witness :
    findBestMatchVariant [] "p1"
        [("p1", [⟨"v1", "Va", "Va", ["A"], 100, 0⟩, ⟨"v2", "Vb", "Vb", ["B"], 200, 0⟩])]
        [("p1", ["Size"])] =
      some ⟨"v1", "Va", "Va", ["A"], 100, 0⟩ :=
  (best_match_selection [] "p1"
      [("p1", [⟨"v1", "Va", "Va", ["A"], 100, 0⟩, ⟨"v2", "Vb", "Vb", ["B"], 200, 0⟩])]
      [("p1", ["Size"])] (by decide) (by decide)).2.1
    ⟨"v1", "Va", "Va", ["A"], 100, 0⟩ [⟨"v2", "Vb", "Vb", ["B"], 200, 0⟩]
    (by decide) (by decide)

/-! ## Main-variant mapping (`VariantMatcher.mapMainProductVariants`,
`assets/upsell-products.js`) -/

/-- The `Option` shape from the embedded product JSON
(`@typedef Option` in `assets/upsell-products.js`); `position` is the 1-based
index into a variant's option-value array. -/
structure ProductOption where
  name : String
  position : Int
  values : List String
deriving DecidableEq

/-- Models JavaScript array indexing `arr[i]` for a possibly negative index:
`undefined` (`none`) when out of range. -/
def jsIndex (l : List String) (i : Int) : Option String :=
  if i < 0 then none else l.get? i.toNat

/-- Models the JavaScript object assignment `acc[key] = value`: overwrite in
place when the key exists, append otherwise. -/
def jsSetKey (obj : List (String × String)) (key value : String) :
    List (String × String) :=
  if (obj.lookup key).isSome then
    obj.map (fun p => if p.1 = key then (key, value) else p)
  else obj ++ [(key, value)]

/-- Embeds `VariantMatcher.mapMainProductVariants`: find the selected variant
by id, returning an empty mapping when absent, otherwise reduce the options
into a mapping from option name to the variant's value at `position - 1`
(empty string when out of range), skipping options with a falsy name. -/
def mapMainProductVariants (variantId : String) (mainProductOptions : List ProductOption)
    (mainProductVariants : List Variant) : List (String × String) :=
  match mainProductVariants.find? (fun variant => variant.id == variantId) with
  | none => []
  | some mainProductVariant =>
      mainProductOptions.foldl (fun acc option =>
        if option.name = "" then acc
        else jsSetKey acc option.name
          ((jsIndex mainProductVariant.options (option.position - 1)).getD "")) []

lemma lookup_cons_ne (p : String × String) (l : List (String × String)) (k : String)
    (h : k ≠ p.1) : (p :: l).lookup k = l.lookup k := by
  obtain ⟨a, b⟩ := p
  rw [List.lookup_cons]
  have hb : (k == a) = false := by simpa using h
  rw [hb]

lemma lookup_append_of_none (l1 l2 : List (String × String)) (k : String)
    (h : l1.lookup k = none) : (l1 ++ l2).lookup k = l2.lookup k := by
  induction l1 with
  | nil => simp
  | cons p t ih =>
      obtain ⟨a, b⟩ := p
      rw [List.lookup_cons] at h
      rcases hk : (k == a) with _ | _
      · rw [hk] at h
        rw [List.cons_append, lookup_cons_ne _ _ _ (by simpa using hk)]
        exact ih h
      · rw [hk] at h
        simp at h

lemma mapMain_foldl (v : Variant) :
    ∀ (opts : List ProductOption) (acc : List (String × String)),
      (∀ o ∈ opts, o.name ≠ "") →
      (∀ o ∈ opts, acc.lookup o.name = none) →
      (opts.map ProductOption.name).Nodup →
      opts.foldl (fun acc option =>
          if option.name = "" then acc
          else jsSetKey acc option.name
            ((jsIndex v.options (option.position - 1)).getD "")) acc =
        acc ++ opts.map (fun o => (o.name, (jsIndex v.options (o.position - 1)).getD "")) := by
  intro opts
  induction opts with
  | nil => intro acc _ _ _; simp
  | cons o t ih =>
      intro acc hn hfresh hnd
      rw [List.map_cons, List.nodup_cons] at hnd
      rw [List.foldl_cons, if_neg (hn o (by simp))]
      have hkey : acc.lookup o.name = none := hfresh o (by simp)
      have hset : jsSetKey acc o.name ((jsIndex v.options (o.position - 1)).getD "") =
          acc ++ [(o.name, (jsIndex v.options (o.position - 1)).getD "")] := by
        rw [jsSetKey, if_neg (by simp [hkey])]
      rw [hset, ih _ (fun o' ho' => hn o' (by simp [ho']))
        (fun o' ho' => by
          rw [lookup_append_of_none _ _ _ (hfresh o' (by simp [ho']))]
          have hne : o'.name ≠ o.name := by
            intro hcontra
            exact hnd.1 (hcontra ▸ List.mem_map_of_mem ProductOption.name ho')
          rw [lookup_cons_ne _ _ _ hne, List.lookup_nil])
        hnd.2]
      simp

lemma lookup_map_options (g : ProductOption → String) :
    ∀ (opts : List ProductOption) (o : ProductOption), o ∈ opts →
      (opts.map ProductOption.name).Nodup →
      (opts.map (fun o' => (o'.name, g o'))).lookup o.name = some (g o) := by
  intro opts
  induction opts with
  | nil => intro o ho; cases ho
  | cons p t ih =>
      intro o ho hnd
      rw [List.map_cons, List.nodup_cons] at hnd
      rcases List.mem_cons.mp ho with rfl | ho2
      · rw [List.map_cons, List.lookup_cons]
        simp
      · rw [List.map_cons]
        have hne : o.name ≠ p.name := by
          intro hcontra
          exact hnd.1 (hcontra ▸ List.mem_map_of_mem ProductOption.name ho2)
        rw [lookup_cons_ne _ _ _ hne]
        exact ih o ho2 hnd.2

/-- C9: with non-empty, duplicate-free option names, the main-variant mapping
is empty when no variant has the given id, and otherwise maps each option
name to the selected variant's value at the option's 1-based position
(indexing `position - 1` into the variant's option-value array); positions
within range look up to exactly that array entry. -/
theorem map_main_variant_correct (variantId : String)
    (mainProductOptions : List ProductOption) (mainProductVariants : List Variant)
    (hnames : ∀ o ∈ mainProductOptions, o.name ≠ "")
    (hnd : (mainProductOptions.map ProductOption.name).Nodup) :
    ((∀ v ∈ mainProductVariants, v.id ≠ variantId) →
      mapMainProductVariants variantId mainProductOptions mainProductVariants = []) ∧
    (∀ v, mainProductVariants.find? (fun variant => variant.id == variantId) = some v →
      mapMainProductVariants variantId mainProductOptions mainProductVariants =
        mainProductOptions.map (fun o =>
          (o.name, (jsIndex v.options (o.position - 1)).getD "")) ∧
      ∀ o ∈ mainProductOptions, 1 ≤ o.position →
        o.position ≤ (v.options.length : Int) →
        (mapMainProductVariants variantId mainProductOptions
            mainProductVariants).lookup o.name =
          v.options.get? (o.position - 1).toNat) := by
  constructor
  · intro hnone
    rw [mapMainProductVariants, List.find?_eq_none.mpr (fun v hv => by simp [hnone v hv])]
  · intro v hfind
    have heq : mapMainProductVariants variantId mainProductOptions mainProductVariants =
        mainProductOptions.map (fun o =>
          (o.name, (jsIndex v.options (o.position - 1)).getD "")) := by
      rw [mapMainProductVariants, hfind]
      show mainProductOptions.foldl (fun acc option =>
          if option.name = "" then acc
          else jsSetKey acc option.name
            ((jsIndex v.options (option.position - 1)).getD "")) [] = _
      rw [mapMain_foldl v mainProductOptions [] hnames (fun o _ => List.lookup_nil) hnd]
      simp
    refine ⟨heq, ?_⟩
    intro o ho hpos1 hpos2
    rw [heq, lookup_map_options _ mainProductOptions o ho hnd]
    have hidx : jsIndex v.options (o.position - 1) =
        v.options.get? (o.position - 1).toNat := by
      rw [jsIndex, if_neg (by omega)]
    have hlt : (o.position - 1).toNat < v.options.length := by omega
    rw [hidx, List.get?_eq_get hlt, Option.getD_some]

/-- Witness for C9: the selected variant `v1` with values `Large, Red` under
options `Size` (position 1) and `Color` (position 2) maps to
`Size=Large, Color=Red`. -/
theorem map_main_variant_correct_witness :
    mapMainProductVariants "v1"
        [⟨"Size", 1, ["Large", "Small"]⟩, ⟨"Color", 2, ["Red", "Blue"]⟩]
        [⟨"v1", "Va", "Va", ["Large", "Red"], 100, 0⟩] =
      [("Size", "Large"), ("Color", "Red")] :=
  ((map_main_variant_correct "v1"
      [⟨"Size", 1, ["Large", "Small"]⟩, ⟨"Color", 2, ["Red", "Blue"]⟩]
      [⟨"v1", "Va", "Va", ["Large", "Red"], 100, 0⟩]
      (by decide) (by decide)).2
    ⟨"v1", "Va", "Va", ["Large", "Red"], 100, 0⟩ (by decide)).1

/-! ## Hide-condition parsing (`HideConditionManager`,
`assets/upsell-products.js`)

`parseSingleCondition` matches an entry against the regular expression
`^([^:]+):([^\x5b]+)\x5b([^\x5d]+)\x5d$`.  For this particular expression the
greedy match is deterministic: the first group runs to the first colon, the
second to the next opening bracket, the third to the next closing bracket,
which must end the string.  `regexExec` embeds exactly that, and
`splitOnFirst` is its single primitive.  The remaining JavaScript string
operations (`trim`, `toLowerCase`, single-character `split`) are embedded on
the character lists underlying `String`. -/

/-- The `HideCondition` record
(`@typedef HideCondition` in `assets/upsell-products.js`). -/
structure HideCondition where
  optionName : String
  optionValue : String
  upsellProducts : List String
deriving DecidableEq

/-- The whitespace class trimmed by `String.prototype.trim` (ASCII part). -/
def jsWhitespace (c : Char) : Bool := c = ' ' || c = '\t' || c = '\n' || c = '\r'

/-- Models `String.prototype.trim`. -/
def jsTrim (s : String) : String :=
  ⟨((s.data.dropWhile jsWhitespace).reverse.dropWhile jsWhitespace).reverse⟩

/-- Splits a character list at each occurrence of `sep`
(the JavaScript `String.prototype.split` semantics for a one-character
separator: an empty input yields one empty piece). -/
def splitList (sep : Char) : List Char → List (List Char)
  | [] => [[]]
  | c :: cs =>
      if c = sep then [] :: splitList sep cs
      else
        match splitList sep cs with
        | [] => [[c]]
        | h :: t => (c :: h) :: t

/-- Models `String.prototype.split` with a one-character separator. -/
def jsSplit (sep : Char) (s : String) : List String :=
  (splitList sep s.data).map (fun l => ⟨l⟩)

/-- Splits a character list at the first occurrence of `sep`, returning the
parts before and after it, or `none` when `sep` does not occur. -/
def splitOnFirst (sep : Char) : List Char → Option (List Char × List Char)
  | [] => none
  | c :: cs =>
      if c = sep then some ([], cs)
      else
        match splitOnFirst sep cs with
        | none => none
        | some (a, b) => some (c :: a, b)

/-- Embeds the match of `^([^:]+):([^\x5b]+)\x5b([^\x5d]+)\x5d$` against a
character list, returning the three capture groups: group 1 runs to the
first colon, group 2 to the next opening bracket, group 3 to the next
closing bracket, which must end the string, and each group is non-empty. -/
def regexExec (l : List Char) : Option (List Char × List Char × List Char) :=
  (splitOnFirst ':' l).bind fun p1 =>
    if p1.1 = [] then none
    else (splitOnFirst '[' p1.2).bind fun p2 =>
      if p2.1 = [] then none
      else (splitOnFirst ']' p2.2).bind fun p3 =>
        if p3.1 = [] then none
        else if p3.2 = [] then some (p1.1, p2.1, p3.1) else none

/-- Embeds `HideConditionManager.parseSingleCondition`: run the regular
expression, re-check the groups for truthiness, then build the record with
trimmed, lower-cased name and value and the bracketed list split on commas
into trimmed non-empty product names. -/
def parseSingleCondition (condition : String) : Option HideCondition :=
  (regexExec condition.data).bind fun m =>
    if m.1 = [] ∨ m.2.1 = [] ∨ m.2.2 = [] then none
    else some
      { optionName := jsToLowerCase (jsTrim ⟨m.1⟩),
        optionValue := jsToLowerCase (jsTrim ⟨m.2.1⟩),
        upsellProducts := ((jsSplit ',' ⟨m.2.2⟩).map jsTrim).filter
          (fun name => 0 < name.length) }

/-- Embeds `HideConditionManager.parseHideConditions`: an absent or
blank-after-trim input yields `[]`; otherwise the input is split on `;` and
each entry parsed, dropping the `null` results of malformed entries. -/
def parseHideConditions : Option String → List HideCondition
  | none => []
  | some s =>
      if jsTrim s = "" then []
      else ((jsSplit ';' s).map parseSingleCondition).reduceOption

lemma splitOnFirst_complete (sep : Char) :
    ∀ (a b : List Char), sep ∉ a → splitOnFirst sep (a ++ sep :: b) = some (a, b) := by
  intro a
  induction a with
  | nil => intro b _; rw [List.nil_append, splitOnFirst, if_pos rfl]
  | cons x xs ih =>
      intro b hmem
      have hx : ¬ x = sep := fun h => hmem (by simp [h])
      rw [List.cons_append, splitOnFirst, if_neg hx, ih b (fun h => hmem (by simp [h]))]

lemma splitOnFirst_sound (sep : Char) :
    ∀ (l a b : List Char),
      splitOnFirst sep l = some (a, b) → l = a ++ sep :: b ∧ sep ∉ a := by
  intro l
  induction l with
  | nil => intro a b h; simp [splitOnFirst] at h
  | cons c cs ih =>
      intro a b h
      rw [splitOnFirst] at h
      by_cases hc : c = sep
      · rw [if_pos hc] at h
        have hpair := Option.some.inj h
        have ha : a = [] := (congrArg Prod.fst hpair).symm
        have hb : b = cs := (congrArg Prod.snd hpair).symm
        subst ha
        subst hb
        subst hc
        exact ⟨rfl, by simp⟩
      · rw [if_neg hc] at h
        cases hsplit : splitOnFirst sep cs with
        | none => rw [hsplit] at h; simp at h
        | some p =>
            obtain ⟨a', b'⟩ := p
            rw [hsplit] at h
            have hpair := Option.some.inj h
            have ha : a = c :: a' := (congrArg Prod.fst hpair).symm
            have hb : b = b' := (congrArg Prod.snd hpair).symm
            obtain ⟨hcs, hmem⟩ := ih a' b' hsplit
            subst ha
            subst hb
            constructor
            · rw [List.cons_append, ← hcs]
            · intro hm
              rcases List.mem_cons.mp hm with h1 | h1
              · exact hc h1.symm
              · exact hmem h1

lemma regexExec_some_iff (l a b c : List Char) :
    regexExec l = some (a, b, c) ↔
      (l = a ++ ':' :: (b ++ '[' :: (c ++ [']'])) ∧
       a ≠ [] ∧ ':' ∉ a ∧ b ≠ [] ∧ '[' ∉ b ∧ c ≠ [] ∧ ']' ∉ c) := by
  constructor
  · intro h
    rw [regexExec] at h
    cases h1 : splitOnFirst ':' l with
    | none => rw [h1] at h; simp at h
    | some p1 =>
        obtain ⟨g1, r1⟩ := p1
        rw [h1] at h
        simp only [Option.some_bind] at h
        by_cases hg1 : g1 = []
        · rw [if_pos hg1] at h; simp at h
        · rw [if_neg hg1] at h
          cases h2 : splitOnFirst '[' r1 with
          | none => rw [h2] at h; simp at h
          | some p2 =>
              obtain ⟨g2, r2⟩ := p2
              rw [h2] at h
              simp only [Option.some_bind] at h
              by_cases hg2 : g2 = []
              · rw [if_pos hg2] at h; simp at h
              · rw [if_neg hg2] at h
                cases h3 : splitOnFirst ']' r2 with
                | none => rw [h3] at h; simp at h
                | some p3 =>
                    obtain ⟨g3, r3⟩ := p3
                    rw [h3] at h
                    simp only [Option.some_bind] at h
                    by_cases hg3 : g3 = []
                    · rw [if_pos hg3] at h; simp at h
                    · rw [if_neg hg3] at h
                      by_cases hr3 : r3 = []
                      · rw [if_pos hr3] at h
                        have hpair := Option.some.inj h
                        have ha : g1 = a := congrArg (fun x => x.1) hpair
                        have hbb : g2 = b := congrArg (fun x => x.2.1) hpair
                        have hcc : g3 = c := congrArg (fun x => x.2.2) hpair
                        obtain ⟨hl1, hm1⟩ := splitOnFirst_sound ':' l g1 r1 h1
                        obtain ⟨hl2, hm2⟩ := splitOnFirst_sound '[' r1 g2 r2 h2
                        obtain ⟨hl3, hm3⟩ := splitOnFirst_sound ']' r2 g3 r3 h3
                        subst ha
                        subst hbb
                        subst hcc
                        subst hr3
                        refine ⟨?_, hg1, hm1, hg2, hm2, hg3, hm3⟩
                        rw [hl1, hl2, hl3]
                      · rw [if_neg hr3] at h; simp at h
  · rintro ⟨hl, ha, hma, hb, hmb, hc, hmc⟩
    subst hl
    rw [regexExec, splitOnFirst_complete ':' a _ hma]
    simp only [Option.some_bind]
    rw [if_neg ha, splitOnFirst_complete '[' b _ hmb]
    simp only [Option.some_bind]
    rw [if_neg hb, splitOnFirst_complete ']' c _ hmc]
    simp only [Option.some_bind]
    rw [if_neg hc]
    simp

lemma reduceOption_map_eq_filterMap (l : List String) (f : String → Option HideCondition) :
    (l.map f).reduceOption = l.filterMap f := by
  show (l.map f).filterMap id = l.filterMap f
  rw [List.filterMap_map]
  rfl

/-- C3: the hide-condition parser yields an empty list for missing or blank
input; otherwise it splits the input on `;` and keeps one record per entry,
skipping (without aborting) exactly the entries that fail the
`name:value[list]` shape; and an entry parses to a record precisely when it
decomposes as `name:value[list]` (non-empty groups, the name without colons,
the value without opening brackets, the list without closing brackets,
the closing bracket ending the entry), the record carrying the trimmed
lower-cased name and value and the bracketed list split on commas into
trimmed non-empty product names. -/
theorem hide_conditions_parse (s : String) :
    parseHideConditions none = [] ∧
    (jsTrim s = "" → parseHideConditions (some s) = []) ∧
    (jsTrim s ≠ "" → parseHideConditions (some s) =
        (jsSplit ';' s).filterMap parseSingleCondition) ∧
    (∀ (entry : String) (r : HideCondition),
      parseSingleCondition entry = some r ↔
        ∃ a b c : List Char,
          entry.data = a ++ ':' :: (b ++ '[' :: (c ++ [']'])) ∧
          a ≠ [] ∧ ':' ∉ a ∧ b ≠ [] ∧ '[' ∉ b ∧ c ≠ [] ∧ ']' ∉ c ∧
          r = ⟨jsToLowerCase (jsTrim ⟨a⟩), jsToLowerCase (jsTrim ⟨b⟩),
               ((jsSplit ',' ⟨c⟩).map jsTrim).filter (fun name => 0 < name.length)⟩) := by
  refine ⟨rfl, ?_, ?_, ?_⟩
  · intro h
    simp [parseHideConditions, h]
  · intro h
    show (if jsTrim s = "" then [] else
        ((jsSplit ';' s).map parseSingleCondition).reduceOption) = _
    rw [if_neg h, reduceOption_map_eq_filterMap]
  · intro entry r
    constructor
    · intro h
      cases hre : regexExec entry.data with
      | none => rw [parseSingleCondition, hre] at h; simp at h
      | some m =>
          obtain ⟨a, b, c⟩ := m
          obtain ⟨hdec, ha, hma, hb, hmb, hc, hmc⟩ :=
            (regexExec_some_iff entry.data a b c).mp hre
          rw [parseSingleCondition, hre] at h
          simp only [Option.some_bind] at h
          rw [if_neg (by simp [ha, hb, hc])] at h
          exact ⟨a, b, c, hdec, ha, hma, hb, hmb, hc, hmc, (Option.some.inj h).symm⟩
    · rintro ⟨a, b, c, hdec, ha, hma, hb, hmb, hc, hmc, hr⟩
      have hre : regexExec entry.data = some (a, b, c) :=
        (regexExec_some_iff entry.data a b c).mpr ⟨hdec, ha, hma, hb, hmb, hc, hmc⟩
      rw [parseSingleCondition, hre]
      simp only [Option.some_bind]
      rw [if_neg (by simp [ha, hb, hc]), hr]

/-- Witness for C3: the two well-formed entries of the spec example parse to
lower-cased records with comma-split product lists, and the malformed third
entry is skipped without affecting them. -/
theorem hide_conditions_parse_witness :
    parseHideConditions
        (some "Size:Large[Gift Wrap, Extra Brush]; Color:Red[Gift Wrap]; bogus") =
      [⟨"size", "large", ["Gift Wrap", "Extra Brush"]⟩,
       ⟨"color", "red", ["Gift Wrap"]⟩] := by
  have h := (hide_conditions_parse
    "Size:Large[Gift Wrap, Extra Brush]; Color:Red[Gift Wrap]; bogus").2.2.1 (by decide)
  rw [h]
  decide

/-! ## Upsell detection in submitted form data
(`ProductFormComponent.#detectUpsellProducts`, `assets/product-form.js`)

By the time `#detectUpsellProducts` runs, `handleSubmit` has assigned the
`properties` key of the form-data object to the line-item-properties object,
and every other entry holds a form-field string.  The object is therefore
embedded as a record of its string fields (in insertion order) plus the
`properties` object. -/

/-- The reserved field-name marker `UPSELL_PRODUCT_PREFIX`
(`'_upsell_variant_'`, `assets/upsell-products.js`). -/
def UPSELL_PRODUCT_PREFIX_STR : String := "_upsell_variant_"

/-- Models `String.prototype.startsWith`. -/
def jsStartsWith (s pre : String) : Bool := pre.data.isPrefixOf s.data

/-- Removes the first occurrence of `pat` from a character list, or `none`
when it does not occur. -/
def replaceFirstAux (pat : List Char) : List Char → Option (List Char)
  | [] => if pat = [] then some [] else none
  | c :: cs =>
      if pat.isPrefixOf (c :: cs) then some ((c :: cs).drop pat.length)
      else (replaceFirstAux pat cs).map (fun l => c :: l)

/-- Models `String.prototype.replace` with a string pattern and empty
replacement: remove the first occurrence of `pat`, if any. -/
def jsReplaceFirst (s pat : String) : String :=
  match replaceFirstAux pat.data s.data with
  | some l => ⟨l⟩
  | none => s

/-- An upsell line item produced by the detection step
(`@typedef UpsellProduct` in `assets/product-form.js`). -/
structure UpsellProduct where
  id : String
  title : String
  quantity : Nat
  properties : List (String × String)
deriving DecidableEq

/-- The submitted form-data object: plain string fields plus the
`properties` object assigned by `handleSubmit`. -/
structure FormJson where
  fields : List (String × String)
  properties : List (String × String)
deriving DecidableEq

/-- Models the object spread `{...a, ...b}`: keys of `a` in order with values
overridden by `b` where present, then the keys of `b` not in `a`. -/
def jsSpread2 (a b : List (String × String)) : List (String × String) :=
  a.map (fun p => (p.1, (b.lookup p.1).getD p.2)) ++
    b.filter (fun p => (a.lookup p.1).isNone)

/-- Embeds `ProductFormComponent.#detectUpsellProducts`: collect the entries
whose key starts with the reserved marker; when none exist, or the product
title field is missing or falsy, return the form data unchanged with no
upsell items; otherwise build one upsell line item per marked entry (id = key
with the first occurrence of the marker removed, title = field value,
quantity 1, a `Product` property carrying the main product's title), strip
the marked entries from the top-level fields, and merge them into the
`properties` object. -/
def detectUpsellProducts (formJsonData : FormJson) : FormJson × List UpsellProduct :=
  let upsellProductsFormData := formJsonData.fields.filter
    (fun p => jsStartsWith p.1 UPSELL_PRODUCT_PREFIX_STR)
  if upsellProductsFormData.length = 0 then (formJsonData, [])
  else
    let productTitle := (formJsonData.fields.lookup "product-title").getD ""
    if productTitle = "" then (formJsonData, [])
    else
      let upsellProducts := upsellProductsFormData.map (fun p =>
        { id := jsReplaceFirst p.1 UPSELL_PRODUCT_PREFIX_STR,
          title := p.2, quantity := 1,
          properties := [("Product", productTitle)] : UpsellProduct })
      let cleanFields := formJsonData.fields.filter
        (fun p => !(jsStartsWith p.1 UPSELL_PRODUCT_PREFIX_STR))
      let formDataProperties := jsSpread2 formJsonData.properties upsellProductsFormData
      ({ fields := cleanFields, properties := formDataProperties }, upsellProducts)

lemma jsReplaceFirst_of_isPrefix (s pre : String)
    (h : pre.data.isPrefixOf s.data = true) :
    jsReplaceFirst s pre = ⟨s.data.drop pre.data.length⟩ := by
  rw [jsReplaceFirst]
  cases hs : s.data with
  | nil =>
      rw [hs] at h
      have hp : pre.data = [] :=
        List.prefix_nil.mp (List.isPrefixOf_iff_prefix.mp h)
      simp [replaceFirstAux, hp]
  | cons c cs =>
      rw [hs] at h
      rw [replaceFirstAux, if_pos h]

lemma append_drop_of_isPrefix (pre s : List Char) (h : pre.isPrefixOf s = true) :
    pre ++ s.drop pre.length = s := by
  obtain ⟨t, rfl⟩ := List.isPrefixOf_iff_prefix.mp h
  rw [List.drop_left]

/-- C6: when no field key carries the reserved upsell marker, the form data
is returned unchanged with an empty upsell list; when the main product title
is present (truthy), each marker-keyed field becomes one upsell line item
whose id is the key's suffix after the marker (the marker plus the id
reassembles the key), whose title is the field value, with quantity 1 and a
`Product` line-item property carrying the main product's title, and the
top-level fields of the primary payload are exactly the original fields with
every marker-keyed entry removed. -/
theorem detect_upsell_products (fd : FormJson) :
    (fd.fields.filter (fun p => jsStartsWith p.1 UPSELL_PRODUCT_PREFIX_STR) = [] →
      detectUpsellProducts fd = (fd, [])) ∧
    (∀ t, fd.fields.lookup "product-title" = some t → t ≠ "" →
      ((detectUpsellProducts fd).2 =
          (fd.fields.filter (fun p => jsStartsWith p.1 UPSELL_PRODUCT_PREFIX_STR)).map
            (fun p => ⟨⟨p.1.data.drop UPSELL_PRODUCT_PREFIX_STR.data.length⟩, p.2, 1,
              [("Product", t)]⟩) ∧
       (∀ p ∈ fd.fields.filter (fun p => jsStartsWith p.1 UPSELL_PRODUCT_PREFIX_STR),
          UPSELL_PRODUCT_PREFIX_STR.data ++
            p.1.data.drop UPSELL_PRODUCT_PREFIX_STR.data.length = p.1.data) ∧
       (detectUpsellProducts fd).1.fields =
          fd.fields.filter (fun p => !(jsStartsWith p.1 UPSELL_PRODUCT_PREFIX_STR)) ∧
       (∀ p ∈ (detectUpsellProducts fd).1.fields,
          ¬ jsStartsWith p.1 UPSELL_PRODUCT_PREFIX_STR = true))) := by
  have hbranch1 : fd.fields.filter
      (fun p => jsStartsWith p.1 UPSELL_PRODUCT_PREFIX_STR) = [] →
      detectUpsellProducts fd = (fd, []) := by
    intro h
    simp only [detectUpsellProducts]
    rw [h]
    simp
  refine ⟨hbranch1, ?_⟩
  intro t hlook ht
  by_cases hflt : fd.fields.filter (fun p => jsStartsWith p.1 UPSELL_PRODUCT_PREFIX_STR) = []
  · have hall : ∀ p ∈ fd.fields, ¬ jsStartsWith p.1 UPSELL_PRODUCT_PREFIX_STR = true :=
      List.filter_eq_nil_iff.mp hflt
    rw [hbranch1 hflt, hflt]
    refine ⟨by simp, by simp, ?_, ?_⟩
    · exact (List.filter_eq_self.mpr (fun p hp => by simp [hall p hp])).symm
    · intro p hp
      exact hall p hp
  · have hlen : ¬ ((fd.fields.filter
        (fun p => jsStartsWith p.1 UPSELL_PRODUCT_PREFIX_STR)).length = 0) := by
      simpa [List.length_eq_zero] using hflt
    have hdet : detectUpsellProducts fd =
        ({ fields := fd.fields.filter
             (fun p => !(jsStartsWith p.1 UPSELL_PRODUCT_PREFIX_STR)),
           properties := jsSpread2 fd.properties
             (fd.fields.filter (fun p => jsStartsWith p.1 UPSELL_PRODUCT_PREFIX_STR)) },
         (fd.fields.filter (fun p => jsStartsWith p.1 UPSELL_PRODUCT_PREFIX_STR)).map
           (fun p => { id := jsReplaceFirst p.1 UPSELL_PRODUCT_PREFIX_STR,
                       title := p.2, quantity := 1,
                       properties := [("Product", t)] })) := by
      simp only [detectUpsellProducts]
      rw [if_neg hlen, hlook]
      simp only [Option.getD_some]
      rw [if_neg ht]
    refine ⟨?_, ?_, ?_, ?_⟩
    · rw [hdet]
      exact List.map_congr_left (fun p hp => by
        have hpre : UPSELL_PRODUCT_PREFIX_STR.data.isPrefixOf p.1.data = true :=
          (List.mem_filter.mp hp).2
        rw [jsReplaceFirst_of_isPrefix p.1 UPSELL_PRODUCT_PREFIX_STR hpre])
    · intro p hp
      exact append_drop_of_isPrefix _ _ (List.mem_filter.mp hp).2
    · rw [hdet]
    · rw [hdet]
      intro p hp
      have hneg := (List.mem_filter.mp hp).2
      simp only [Bool.not_eq_true'] at hneg
      simp [hneg]

/-- Witness for C6: a form with one marker-keyed field and a product title
yields exactly one upsell line item with the key's suffix as id, the value as
title, quantity 1 and the `Product` property, and the cleaned fields drop the
marker-keyed entry. -/
theorem detect_upsell_products_witness :
    (detectUpsellProducts
        ⟨[("product-title", "Main Art"), ("id", "123"),
          ("_upsell_variant_42", "Brush Variant")], [("_feature", "poster")]⟩).2 =
      [⟨"42", "Brush Variant", 1, [("Product", "Main Art")]⟩] ∧
    (detectUpsellProducts
        ⟨[("product-title", "Main Art"), ("id", "123"),
          ("_upsell_variant_42", "Brush Variant")], [("_feature", "poster")]⟩).1.fields =
      [("product-title", "Main Art"), ("id", "123")] := by
  have h := (detect_upsell_products
    ⟨[("product-title", "Main Art"), ("id", "123"),
      ("_upsell_variant_42", "Brush Variant")], [("_feature", "poster")]⟩).2
    "Main Art" (by decide) (by decide)
  exact ⟨h.1.trans (by decide), h.2.2.1.trans (by decide)⟩
